import Mathlib

/-!
A shallow embedding of the BIDS normalization engine of `src/xnatc/bids.py`:
string helpers mirroring the Python `str` methods and the two `re` patterns
that the module uses, the sidecar data model, the matcher functions, the
participants-list update, and the per-scan rename loop of `download_bids`.
Machine strings are modelled as Lean `String` (a wrapper of `List Char`);
paths inside the scan output directory are modelled structurally, since a
staged basename never holds a separator (`os.path.basename` is applied at
download time) while destination files always sit in a modality subfolder.
-/

namespace Xnatc

/-- ASCII lower-casing, as Python `str.lower` acts on ASCII input. -/
def lowerStr (s : String) : String := (s.toList.map Char.toLower).asString

/-- ASCII upper-casing, as Python `str.upper` acts on ASCII input. -/
def upperStr (s : String) : String := (s.toList.map Char.toUpper).asString

/-- Whether `pat` occurs as a contiguous substring of the character list
(the Python test `pat in hay`). -/
def containsSub (pat : List Char) : List Char → Bool
  | [] => pat.isEmpty
  | c :: rest => pat.isPrefixOf (c :: rest) || containsSub pat rest

/-- Python `pat in hay` on strings. -/
def strContains (hay pat : String) : Bool := containsSub pat.toList hay.toList

/-- Python `s.endswith(suf)`. -/
def endsWith (s suf : String) : Bool := suf.toList.isSuffixOf s.toList

/-- Split a character list into its maximal leading digit run and the rest. -/
def takeDigits : List Char → List Char × List Char
  | [] => ([], [])
  | c :: t =>
    if c.isDigit then
      let p := takeDigits t
      (c :: p.1, p.2)
    else ([], c :: t)

/-- Decimal value of a digit run, as Python `int` on the regex group. -/
def digitsToNat (ds : List Char) : Nat := ds.foldl (fun a c => a * 10 + (c.toNat - 48)) 0

/-- One attempt of the tail of the patterns `.*_echo(\d+)[_$]` and
`.*_e(\d+)[_$]` at the head of `s`: the token, a nonempty (maximal) digit
run, then one further character that is `_` or `$`.  Inside a character
class `$` is the literal dollar character, not an end anchor, so a digit
run that ends the string does not match. -/
def echoAt (tok s : List Char) : Option Nat :=
  if tok.isPrefixOf s then
    match takeDigits (s.drop tok.length) with
    | ([], _) => none
    | (_, []) => none
    | (ds, c :: _) => if c = '_' ∨ c = '$' then some (digitsToNat ds) else none
  else none

/-- One attempt of the tail of `.*coil(\d+).*` at the head of `s`. -/
def coilAt (s : List Char) : Option Nat :=
  if "coil".toList.isPrefixOf s then
    match takeDigits (s.drop 4) with
    | ([], _) => none
    | (ds, _) => some (digitsToNat ds)
  else none

/-- The greedy `.*` that opens each of the module's patterns makes
`re.match` succeed at the rightmost feasible start position; scan the
suffixes from the right. -/
def scanRightmost (f : List Char → Option Nat) : List Char → Option Nat
  | [] => f []
  | c :: t =>
    match scanRightmost f t with
    | some n => some n
    | none => f (c :: t)

/-- The JSON sidecar keys that bids.py consults.  A `none` field models a
missing key in the Python dict; `{}` is the empty mapping substituted when
the sidecar is missing or unreadable. -/
structure Sidecar where
  SeriesDescription : Option String := none
  ImageType : Option (List String) := none
  EchoNumber : Option Nat := none
  deriving DecidableEq, Repr

/-- The empty metadata mapping `json_data = {}`. -/
def emptySidecar : Sidecar := {}

/-- bids.py `get_echo_num` (lines 13-24): an explicit `EchoNumber` key wins;
otherwise the two regexes are tried in order on the lower-cased filename. -/
def get_echo_num (fname : String) (json_data : Sidecar) : Option Nat :=
  match json_data.EchoNumber with
  | some n => some n
  | none =>
    let low := fname.toList.map Char.toLower
    match scanRightmost (echoAt "_echo".toList) low with
    | some n => some n
    | none => scanRightmost (echoAt "_e".toList) low

/-- bids.py `get_coil_num` (lines 26-30). -/
def get_coil_num (fname : String) (_json_data : Sidecar) : Option Nat :=
  scanRightmost coilAt (fname.toList.map Char.toLower)

/-- A value stored in the `attrs` dict: strings, or the ints used for the
`run`, `echo` and `coil` attributes (rendered by `%s`). -/
inductive AVal where
  | str (v : String)
  | num (v : Nat)
  deriving DecidableEq, Repr

/-- The `%s` rendering of an attribute value. -/
def AVal.render : AVal → String
  | .str v => v
  | .num v => Nat.repr v

/-- The tuple `(subfolder, suffix, dict of filename attributes, dict of json
updates)` that a matcher returns (comment at bids.py lines 32-33). -/
structure MatchResult where
  folder : String
  suffix : String
  attrs : List (String × AVal)
  md : List (String × String)
  deriving DecidableEq, Repr

/-- Python dict assignment `d[k] = v`: overwrite in place (keeping the key's
insertion position) when the key exists, else append, since dicts preserve
insertion order. -/
def setAttr (attrs : List (String × AVal)) (k : String) (v : AVal) : List (String × AVal) :=
  if attrs.any (fun e => e.1 == k) then attrs.map (fun e => if e.1 == k then (k, v) else e)
  else attrs ++ [(k, v)]

/-- The classification that the body of `match_anat` (bids.py lines 38-58)
computes: folder "anat", suffix chosen by t1 / t2star / t2 in the
lower-cased SeriesDescription, plus acq / part / echo attributes.  The
Python function computes this and then falls off its end without returning
it. -/
def match_anat_body (fname : String) (json_data : Sidecar) : Option MatchResult :=
  let desc := lowerStr (json_data.SeriesDescription.getD "")
  let suffix : Option String :=
    if strContains desc "t1" then some "T1w"
    else if strContains desc "t2star" then some "T2starw"
    else if strContains desc "t2" then some "T2w"
    else none
  match suffix with
  | none => none
  | some suf =>
    let img_types := (json_data.ImageType.getD []).map upperStr
    let a0 : List (String × AVal) := []
    let a1 := if img_types.contains "NORM" then setAttr a0 "acq" (.str "norm") else a0
    let a2 := if img_types.contains "PHASE" then setAttr a1 "part" (.str "phase") else a1
    let a3 := if endsWith (lowerStr fname) "_ph" then setAttr a2 "part" (.str "phase") else a2
    let a4 := match get_echo_num fname json_data with
      | some n => if n ≠ 0 then setAttr a3 "echo" (.num n) else a3
      | none => a3
    some ⟨"anat", suf, a4, []⟩

/-- bids.py `match_anat` (lines 34-58): the body computes
`match_anat_body`, but the function has no return statement, so — exactly
as in Python — every call evaluates to `None`. -/
def match_anat (_fname : String) (_json_data : Sidecar) : Option MatchResult := none

/-- bids.py `match_func` (lines 60-78). -/
def match_func (_fname : String) (json_data : Sidecar) : Option MatchResult :=
  let desc := lowerStr (json_data.SeriesDescription.getD "")
  if strContains desc "fmri" then
    let suffix := if strContains desc "sbref" then "sbref" else "bold"
    let attrs : List (String × AVal) :=
      if strContains desc "resting" then setAttr [] "task" (.str "rest")
      else if strContains desc "task" then setAttr [] "task" (.str "task")
      else []
    let md : List (String × String) :=
      if strContains desc "resting" then []
      else if strContains desc "task" then [("TaskName", "task")]
      else []
    some ⟨"func", suffix, attrs, md⟩
  else none

/-- bids.py `match_dwi` (lines 80-92). -/
def match_dwi (_fname : String) (json_data : Sidecar) : Option MatchResult :=
  let desc := lowerStr (json_data.SeriesDescription.getD "")
  if strContains desc "diff" then
    let suffix := if strContains desc "sbref" then "sbref" else "dwi"
    some ⟨"dwi", suffix, [], []⟩
  else none

/-- bids.py `match_swi` (lines 94-114). -/
def match_swi (fname : String) (json_data : Sidecar) : Option MatchResult :=
  let desc := lowerStr (json_data.SeriesDescription.getD "")
  if strContains desc "swi" then
    let suffix := if strContains desc "sbref" then "sbref" else "swi"
    let a0 : List (String × AVal) := []
    let a1 := match get_echo_num fname json_data with
      | some n => if n ≠ 0 then setAttr a0 "echo" (.num n) else a0
      | none => a0
    let a2 := match get_coil_num fname json_data with
      | some n => if n ≠ 0 then setAttr a1 "coil" (.num n) else a1
      | none => a1
    some ⟨"swi", suffix, a2, []⟩
  else none

/-- bids.py `DEFAULT_MATCHER` (lines 116-121). -/
def DEFAULT_MATCHER : List (String → Sidecar → Option MatchResult) :=
  [match_anat, match_func, match_dwi, match_swi]

/-- The matcher loop of `download_bids` (lines 223-225): the first matcher
returning a truthy (non-None) value wins; later matchers are not called. -/
def firstMatch : List (String → Sidecar → Option MatchResult) → String → Sidecar →
    Option MatchResult
  | [], _, _ => none
  | m :: rest, fname, jd =>
    match m fname jd with
    | some r => some r
    | none => firstMatch rest fname jd

/-- Classification of one acquisition with the default matcher list. -/
def classify (fname : String) (jd : Sidecar) : Option MatchResult :=
  firstMatch DEFAULT_MATCHER fname jd

/-- bids.py line 198: the extension vocabulary, in source order. -/
def EXTS : List String := [".nii.gz", ".nii", ".json", ".bval", ".bvec"]

/-- Fuelled core of Python `s.replace(pat, "")`: delete the leftmost
occurrence of `pat` and continue after the deleted region, never
reconsidering already-emitted characters.  Each step consumes at least one
character, so fuel `s.length` always suffices. -/
def replaceAllAux (pat : List Char) : Nat → List Char → List Char
  | _, [] => []
  | 0, s => s
  | fuel + 1, c :: rest =>
    if !pat.isEmpty && pat.isPrefixOf (c :: rest) then
      replaceAllAux pat fuel ((c :: rest).drop pat.length)
    else c :: replaceAllAux pat fuel rest

/-- Python `s.replace(pat, "")`: delete every (non-overlapping,
left-to-right) occurrence of `pat` anywhere in `s`. -/
def replaceAll (s pat : String) : String :=
  (replaceAllAux pat.toList s.toList.length s.toList).asString

/-- bids.py lines 203-205: the acquisition basename, obtained by deleting
every occurrence of each extension from the file name, in the order of
`EXTS`. -/
def stripExts (name : String) : String := EXTS.foldl replaceAll name

/-- The `imgfiles` set accumulated at bids.py lines 195-206: the distinct
stripped basenames (first occurrences kept as representatives; the Python
set carries no order, which `processAll` below takes as a parameter). -/
def imgfilesOf (files : List String) : List String := (files.map stripExts).dedup

/-- A path inside the scan output directory: either a file staged directly
in the directory (its name is an `os.path.basename`, hence separator-free)
or a file inside a modality subfolder. -/
inductive Path where
  | staged (name : String)
  | dest (folder : String) (name : String)
  deriving DecidableEq, Repr

/-- The output directory contents: current path ↦ originally staged path.
The second component follows a file's identity (its bytes) across
`os.rename`, which preserves contents. -/
abbrev FS := List (Path × Path)

/-- Python `os.path.exists`. -/
def fsExists (fs : FS) (p : Path) : Bool := fs.any (fun e => e.1 == p)

/-- Python `os.remove`. -/
def fsRemove (fs : FS) (p : Path) : FS := fs.filter (fun e => e.1 != p)

/-- Python `os.rename src dst`: move the entry at `src`, silently replacing any
entry at `dst` (POSIX rename overwrites).  The code only calls it when
`src` exists; a missing `src` leaves the filesystem unchanged here. -/
def fsRename (fs : FS) (src dst : Path) : FS :=
  match fs.find? (fun e => e.1 == src) with
  | none => fs
  | some e => (dst, e.2) :: fsRemove (fsRemove fs src) dst

/-- The identity of the scan being converted: the sanitized
`bids_subject` and `bids_session` labels (bids.py lines 180-181). -/
structure Ctx where
  bids_subject : String
  bids_session : String
  deriving DecidableEq, Repr

/-- Python `"_".join`. -/
def joinU : List String → String
  | [] => ""
  | [s] => s
  | s :: rest => s ++ "_" ++ joinU rest

/-- bids.py lines 234 and 241:
`"_".join(["%s-%s" % (k, v) for k, v in attrs.items()] + [suffix])`. -/
def bidsName (attrs : List (String × AVal)) (suffix : String) : String :=
  joinU ((attrs.map (fun e => e.1 ++ "-" ++ e.2.render)) ++ [suffix])

/-- The destination file name `"%s_%s_%s%s" % (bids_subject, bids_session,
bids_fname, ext)` of bids.py lines 235 and 242. -/
def destName (ctx : Ctx) (attrs : List (String × AVal)) (suffix ext : String) : String :=
  ctx.bids_subject ++ "_" ++ ctx.bids_session ++ "_" ++ bidsName attrs suffix ++ ext

/-- The Python test `"run" in attrs`. -/
def hasRun (attrs : List (String × AVal)) : Bool := attrs.any (fun e => e.1 == "run")

/-- The numeric value of `attrs["run"]`; the code only reads it after
writing an int there, so the 0 default is never consulted. -/
def getRun (attrs : List (String × AVal)) : Nat :=
  match attrs.find? (fun e => e.1 == "run") with
  | some (_, .num n) => n
  | _ => 0

/-- The `while not handled_duplicates` loop of bids.py lines 231-250 (run
for one extension): re-check occupancy of the candidate destination name;
on the first collision rename the already-placed file to a run-1 name and
switch the new acquisition to run 2, on later collisions increment run;
stop at the first unoccupied name.  Returns the final attrs, the
filesystem after any retroactive rename, and the last-computed
`dest_fname` of line 235.  The loop is fuelled; the fuel the callers pass
always outlasts the finitely many occupied names. -/
def handleDup (ctx : Ctx) (folder suffix ext : String) :
    Nat → List (String × AVal) → FS → List (String × AVal) × FS × String
  | 0, attrs, fs => (attrs, fs, destName ctx attrs suffix ext)
  | fuel + 1, attrs, fs =>
    let dest := destName ctx attrs suffix ext
    if fsExists fs (.dest folder dest) then
      if !hasRun attrs then
        let attrs1 := setAttr attrs "run" (.num 1)
        let renamed := destName ctx attrs1 suffix ext
        let fs1 := fsRename fs (.dest folder dest) (.dest folder renamed)
        handleDup ctx folder suffix ext fuel (setAttr attrs1 "run" (.num 2)) fs1
      else
        handleDup ctx folder suffix ext fuel (setAttr attrs "run" (.num (getRun attrs + 1))) fs
    else (attrs, fs, dest)

/-- The state threaded through `for ext in EXTS` (bids.py lines 229-253):
the mutable `attrs` dict, the directory contents, `handled_duplicates`,
and the current `dest_fname` as a (folder, name) pair — which the source
only recomputes inside the while loop, so it goes stale for the
extensions after the first. -/
structure ExtState where
  attrs : List (String × AVal)
  fs : FS
  handled : Bool
  dest : String × String
  log : List String
  deriving Repr

/-- The `print` at bids.py line 249. -/
def mappingMsg (imgname folder bids_fname : String) : String :=
  "Mapping " ++ imgname ++ " -> " ++ folder ++ " / " ++ bids_fname

/-- Lines 231-250 as they act on the loop state: run the
duplicate-handling loop unless a previous extension already did
(`handled_duplicates`), recording the final attrs, filesystem,
`dest_fname` and the mapping message. -/
def runDup (ctx : Ctx) (folder suffix imgname ext : String) (st : ExtState) : ExtState :=
  if st.handled then st
  else
    let r := handleDup ctx folder suffix ext (st.fs.length + 2) st.attrs st.fs
    { st with attrs := r.1, fs := r.2.1, dest := (folder, r.2.2), handled := true,
              log := st.log ++ [mappingMsg imgname folder (bidsName r.1 suffix)] }

/-- Lines 252-253: move the staged source file — if present — to the
last-computed `dest_fname`. -/
def moveSrc (imgname ext : String) (st : ExtState) : ExtState :=
  if fsExists st.fs (Path.staged (imgname ++ ext)) then
    { st with fs := fsRename st.fs (Path.staged (imgname ++ ext)) (.dest st.dest.1 st.dest.2) }
  else st

/-- One iteration of `for ext in EXTS` (bids.py lines 229-253). -/
def processExt (ctx : Ctx) (folder suffix imgname : String) (st : ExtState) (ext : String) :
    ExtState :=
  moveSrc imgname ext (runDup ctx folder suffix imgname ext st)

/-- The warning at bids.py line 213. -/
def warnNoJson (imgname : String) : String :=
  "No JSON sidecar for " ++ imgname ++ " - may not be able to match file"

/-- The warning at bids.py line 220 (the exception text is dropped here). -/
def warnBadJson : String := "Error reading JSON metadat - may not be able to match file"

/-- The warning at bids.py line 257. -/
def warnUnmatched (imgname : String) : String :=
  "Unmatched file: " ++ imgname ++ " - removing from BIDS dataset"

/-- Reading the sidecar (bids.py lines 211-221): a missing JSON file or a
parse failure (modelled by the content oracle returning `none`) is logged
as a warning and replaced by the empty mapping. -/
def jsonDataFor (oracle : String → Option Sidecar) (fs : FS) (imgname : String) :
    Sidecar × List String :=
  if fsExists fs (.staged (imgname ++ ".json")) then
    match oracle imgname with
    | some d => (d, [])
    | none => (emptySidecar, [warnBadJson])
  else (emptySidecar, [warnNoJson imgname])

/-- The loop body of bids.py lines 258-260: remove one staged extension
file if it is present. -/
def delStep (imgname : String) (fs : FS) (ext : String) : FS :=
  if fsExists fs (.staged (imgname ++ ext)) then fsRemove fs (.staged (imgname ++ ext))
  else fs

/-- The unmatched-acquisition cleanup of bids.py lines 258-260. -/
def deleteExts (fs : FS) (imgname : String) : FS := EXTS.foldl (delStep imgname) fs

/-- Acting on one acquisition once its sidecar is read (bids.py lines
222-260): first matching rule wins and drives the extension loop;
otherwise every staged extension file is removed and a warning logged. -/
def handleAcq (ctx : Ctx) (fs : FS) (imgname : String) (jd : Sidecar) : FS × List String :=
  match classify imgname jd with
  | some r =>
    let st := EXTS.foldl (processExt ctx r.folder r.suffix imgname)
      ⟨r.attrs, fs, false, (r.folder, ""), []⟩
    (st.fs, st.log)
  | none => (deleteExts fs imgname, [warnUnmatched imgname])

/-- One iteration of `for imgname in imgfiles` (bids.py lines 210-260). -/
def processAcq (ctx : Ctx) (oracle : String → Option Sidecar)
    (st : FS × List String) (imgname : String) : FS × List String :=
  let j := jsonDataFor oracle st.1 imgname
  let h := handleAcq ctx st.1 imgname j.1
  (h.1, st.2 ++ j.2 ++ h.2)

/-- The whole rename loop of `download_bids`, with the enumeration order of
the Python set `imgfiles` made explicit as a list parameter. -/
def processAll (ctx : Ctx) (oracle : String → Option Sidecar)
    (order : List String) (fs : FS) : FS × List String :=
  order.foldl (processAcq ctx oracle) (fs, [])

/-- Lookup of a destination entry's provenance. -/
def fsLookup (fs : FS) (p : Path) : Option Path :=
  (fs.find? (fun e => e.1 == p)).map (fun e => e.2)

/-- bids.py `update_ptlist` (lines 123-140), as a transition on the state
of participants.tsv: `none` models an absent file, `some lines` its
stripped lines.  The subject is appended (and the file rewritten) only
when it is absent from the lines after the header. -/
def update_ptlist (st : Option (List String)) (bids_subject : String) : Option (List String) :=
  let pts := match st with
    | some lines => lines
    | none => ["participant_id"]
  if bids_subject ∈ pts.drop 1 then st
  else some (pts ++ [bids_subject])

/-! Concrete inputs used by the evaluation theorems below. -/

/-- A scan context with sanitized subject and session labels. -/
def ctx0 : Ctx := ⟨"sub-01", "ses-01"⟩

/-- A content oracle under which every sidecar parses to the description
"diff", so every acquisition classifies to dwi with empty attrs and the
same candidate destination name. -/
def diffOracle : String → Option Sidecar := fun _ => some { SeriesDescription := some "diff" }

/-- A freshly staged file: its provenance is itself. -/
def st0 (s : String) : Path × Path := (.staged s, .staged s)

/-- Three acquisitions a1, a2, a3, each staged with an image and a sidecar. -/
def initFS3 : FS :=
  [st0 "a1.nii.gz", st0 "a1.json", st0 "a2.nii.gz", st0 "a2.json", st0 "a3.nii.gz", st0 "a3.json"]

/-- Two acquisitions a1, a2, each staged with an image and a sidecar. -/
def initFS2 : FS := [st0 "a1.nii.gz", st0 "a1.json", st0 "a2.nii.gz", st0 "a2.json"]

/-- The sidecar of the spec's end-to-end anatomical example. -/
def exT1 : Sidecar := { SeriesDescription := some "3D T1 NORM MPRAGE", ImageType := some ["NORM"] }

/-- A sidecar whose description holds both an anatomical and a functional
token. -/
def exT1Fmri : Sidecar := { SeriesDescription := some "T1 FMRI" }

/-- A content oracle under which no sidecar parses. -/
def noneOracle : String → Option Sidecar := fun _ => none

/-! Notions used to state and prove the invariant claims. -/

/-- The staged extension files of one acquisition. -/
def acqFiles (imgname : String) : List Path := EXTS.map (fun ext => Path.staged (imgname ++ ext))

/-- A provenance discipline: any entry whose bytes originate from one of
the acquisition's staged files still sits at one of those staged paths
(i.e. the files were never renamed elsewhere). -/
def ProvFollows (imgname : String) (fs : FS) : Prop :=
  ∀ e ∈ fs, e.2 ∈ acqFiles imgname → e.1 ∈ acqFiles imgname

/-- No trace of the acquisition is left: no entry sits at one of its
staged paths and no entry's bytes originate from them. -/
def NoTrace (imgname : String) (fs : FS) : Prop :=
  ∀ e ∈ fs, e.1 ∉ acqFiles imgname ∧ e.2 ∉ acqFiles imgname

/-- The subject entries of the participants file: its lines after the
header. -/
def listed : Option (List String) → List String
  | some lines => lines.drop 1
  | none => []

/-- Well-formedness of the participants file as maintained by
`update_ptlist`: if the file exists, its first line is the header and its
lines are pairwise distinct. -/
def PtInv : Option (List String) → Prop
  | some lines => ∃ t, lines = "participant_id" :: t ∧ lines.Nodup
  | none => True

/-! The claims. -/

/-- C1: FALSIFIED AT THE THIRD COLLISION.  Three acquisitions a1, a2, a3
with identical candidate names: the first collision does rename a1's
placed file to run-1 and assign a2 run-2 (first two conjuncts, with
provenance intact), but the run-1 rename vacates the un-suffixed name, so
a3's occupancy check succeeds immediately and a3 is placed at the plain
name — no run-3 name is ever created, contradicting the claim that a
third collision yields run-3. -/
theorem C1_third_collision_lands_on_plain_name :
    fsLookup (processAll ctx0 diffOracle ["a1", "a2", "a3"] initFS3).1
        (.dest "dwi" "sub-01_ses-01_run-1_dwi.nii.gz") = some (.staged "a1.json") ∧
    fsLookup (processAll ctx0 diffOracle ["a1", "a2", "a3"] initFS3).1
        (.dest "dwi" "sub-01_ses-01_run-2_dwi.nii.gz") = some (.staged "a2.json") ∧
    fsLookup (processAll ctx0 diffOracle ["a1", "a2", "a3"] initFS3).1
        (.dest "dwi" "sub-01_ses-01_dwi.nii.gz") = some (.staged "a3.json") ∧
    fsExists (processAll ctx0 diffOracle ["a1", "a2", "a3"] initFS3).1
        (.dest "dwi" "sub-01_ses-01_run-3_dwi.nii.gz") = false := by
  decide

/-- C2: FALSIFIED.  One acquisition staged with an image and a sidecar:
because `dest_fname` is only recomputed inside the while loop (bids.py
lines 234-235), every extension after the first is renamed onto the stale
destination computed for ".nii.gz".  The end state holds exactly one
file — the .nii.gz destination path now carrying the sidecar's bytes —
and no .json file reaches the destination folder, so the acquisition's
extensions are not routed as an atomic unit. -/
theorem C2_later_extensions_collapse_onto_stale_dest :
    (processAll ctx0 diffOracle ["scan1"] [st0 "scan1.nii.gz", st0 "scan1.json"]).1
        = [(.dest "dwi" "sub-01_ses-01_dwi.nii.gz", .staged "scan1.json")] ∧
    fsExists (processAll ctx0 diffOracle ["scan1"] [st0 "scan1.nii.gz", st0 "scan1.json"]).1
        (.dest "dwi" "sub-01_ses-01_dwi.json") = false := by
  decide

/-- C3: FALSIFIED.  On the spec's own example (description
"3D T1 NORM MPRAGE", ImageType containing "NORM") the body of match_anat
computes folder "anat", suffix "T1w" and acq=norm — but match_anat has no
return statement, so it returns None, and the whole classification
returns None: the acquisition is treated as unmatched instead of
anatomical. -/
theorem C3_match_anat_returns_none_despite_matching_body :
    match_anat "mprage_t1" exT1 = none ∧
    classify "mprage_t1" exT1 = none ∧
    match_anat_body "mprage_t1" exT1 = some ⟨"anat", "T1w", [("acq", .str "norm")], []⟩ := by
  decide

/-- C4: FALSIFIED.  For a description holding both "t1" and "fmri" the
anatomical rule — consulted first — returns None (missing return
statement), so the functional rule IS consulted and claims the
acquisition as func/bold, contrary to the claim that the anatomical rule
always wins such ties. -/
theorem C4_functional_rule_claims_t1_fmri :
    match_anat "scan01" exT1Fmri = none ∧
    classify "scan01" exT1Fmri = some ⟨"func", "bold", [], []⟩ := by
  decide

/-- C5: PARTLY FALSIFIED.  An explicit EchoNumber key does win over the
filename (last conjunct), and a `_echo<N>_` token parses (third
conjunct); but a filename that ENDS in `_echo<N>` or `_e<N>` yields
nothing, because `$` inside the character class `[_$]` is the literal
dollar character, not an end anchor (first two conjuncts). -/
theorem C5_trailing_echo_token_not_parsed :
    get_echo_num "scan_echo2" emptySidecar = none ∧
    get_echo_num "scan_e3" emptySidecar = none ∧
    get_echo_num "scan_echo2_ph" emptySidecar = some 2 ∧
    get_echo_num "scan_echo2_ph" { EchoNumber := some 3 } = some 3 := by
  decide

/-- C8: FALSIFIED.  The code enumerates `imgfiles`, a Python set, whose
iteration order is not a function of the downloaded names; for the same
staged files and sidecars, the two enumeration orders of {a1, a2} assign
run-1 to different acquisitions (the provenance at the run-1 name
differs), so collision outcomes are not reproducible across runs. -/
theorem C8_run_assignment_depends_on_enumeration_order :
    fsLookup (processAll ctx0 diffOracle ["a1", "a2"] initFS2).1
        (.dest "dwi" "sub-01_ses-01_run-1_dwi.nii.gz") = some (.staged "a1.json") ∧
    fsLookup (processAll ctx0 diffOracle ["a2", "a1"] initFS2).1
        (.dest "dwi" "sub-01_ses-01_run-1_dwi.nii.gz") = some (.staged "a2.json") := by
  decide

/-- C10: the basename strips every occurrence of each vocabulary extension
— in the order .nii.gz, .nii, .json, .bval, .bvec — from anywhere in the
name, not only a trailing extension (second and third conjuncts delete a
mid-name ".json" and an inner ".nii"), and two file names equal after
stripping are grouped into one acquisition. -/
theorem C10_strip_deletes_all_occurrences_and_groups :
    stripExts "scan_task.nii.gz" = "scan_task" ∧
    stripExts "x.json_v1.nii" = "x_v1" ∧
    stripExts "a.niib.nii.gz" = "ab" ∧
    imgfilesOf ["x.json_v1.nii", "x_v1.nii.json"] = ["x_v1"] := by
  decide

/-- With the empty metadata mapping no matcher fires: every match decision
reads only the SeriesDescription, which is absent. -/
theorem classify_emptySidecar (f : String) : classify f emptySidecar = none := rfl

/-- C7: a missing sidecar file, or one whose parse fails (oracle `none`),
is logged as exactly one warning, replaced by the empty metadata mapping,
and the acquisition still goes through classification: processing it
equals handling it with the empty mapping, with the warning inserted into
the log — in particular the step is a total function and nothing escapes
the per-acquisition loop. -/
theorem C7_missing_or_bad_sidecar_warns_and_proceeds
    (ctx : Ctx) (oracle : String → Option Sidecar) (fs : FS) (log : List String)
    (imgname : String)
    (h : fsExists fs (.staged (imgname ++ ".json")) = false ∨ oracle imgname = none) :
    (jsonDataFor oracle fs imgname).1 = emptySidecar ∧
    (jsonDataFor oracle fs imgname).2.length = 1 ∧
    processAcq ctx oracle (fs, log) imgname =
      ((handleAcq ctx fs imgname emptySidecar).1,
        log ++ (jsonDataFor oracle fs imgname).2 ++ (handleAcq ctx fs imgname emptySidecar).2) := by
  have hj : ∃ w, jsonDataFor oracle fs imgname = (emptySidecar, [w]) := by
    rcases h with h | h
    · exact ⟨warnNoJson imgname, by simp [jsonDataFor, h]⟩
    · cases hex : fsExists fs (.staged (imgname ++ ".json")) with
      | false => exact ⟨warnNoJson imgname, by simp [jsonDataFor, hex]⟩
      | true => exact ⟨warnBadJson, by simp [jsonDataFor, hex, h]⟩
  obtain ⟨w, hj⟩ := hj
  refine ⟨by rw [hj], by simp [hj], ?_⟩
  simp [processAcq, hj]

/-- Witness for C7 at a concrete input: no sidecar is staged for "x". -/
theorem C7_witness :
    (fsExists ([] : FS) (.staged ("x" ++ ".json")) = false) ∧
    ((jsonDataFor noneOracle ([] : FS) "x").1 = emptySidecar ∧
      (jsonDataFor noneOracle ([] : FS) "x").2.length = 1 ∧
      processAcq ctx0 noneOracle (([] : FS), []) "x" =
        ((handleAcq ctx0 [] "x" emptySidecar).1,
          [] ++ (jsonDataFor noneOracle ([] : FS) "x").2 ++
            (handleAcq ctx0 [] "x" emptySidecar).2)) :=
  ⟨by decide,
    C7_missing_or_bad_sidecar_warns_and_proceeds ctx0 noneOracle [] [] "x" (Or.inl (by decide))⟩

/-- One `update_ptlist` call keeps the participants file well-formed,
provided the subject is not the header itself. -/
theorem update_ptlist_inv {s : String} (st : Option (List String))
    (hst : PtInv st) (hs : s ≠ "participant_id") : PtInv (update_ptlist st s) := by
  cases st with
  | none =>
    have hu : update_ptlist none s = some ["participant_id", s] := by simp [update_ptlist]
    rw [hu]
    exact ⟨[s], rfl, by simp [Ne.symm hs]⟩
  | some lines =>
    obtain ⟨t, rfl, hnd⟩ := hst
    by_cases hmem : s ∈ t
    · have hu : update_ptlist (some ("participant_id" :: t)) s =
          some ("participant_id" :: t) := by simp [update_ptlist, hmem]
      rw [hu]
      exact ⟨t, rfl, hnd⟩
    · have hu : update_ptlist (some ("participant_id" :: t)) s =
          some ("participant_id" :: (t ++ [s])) := by simp [update_ptlist, hmem]
      rw [hu]
      refine ⟨t ++ [s], rfl, ?_⟩
      rcases List.nodup_cons.mp hnd with ⟨hh, htnd⟩
      refine List.nodup_cons.mpr ⟨?_, ?_⟩
      · simp [hh, Ne.symm hs]
      · have disj : t.Disjoint [s] := fun x hx hxs => hmem ((List.mem_singleton.mp hxs) ▸ hx)
        exact List.Nodup.append htnd (List.nodup_singleton s) disj

/-- A subject already listed stays listed across one `update_ptlist` call. -/
theorem listed_mono {s : String} (st : Option (List String)) :
    ∀ x ∈ listed st, x ∈ listed (update_ptlist st s) := by
  cases st with
  | none => simp [listed]
  | some lines =>
    cases lines with
    | nil => simp [listed]
    | cons a t =>
      intro x hx
      have hx' : x ∈ t := by simpa [listed] using hx
      by_cases hmem : s ∈ t
      · have hu : update_ptlist (some (a :: t)) s = some (a :: t) := by
          simp [update_ptlist, hmem]
        rw [hu]
        simpa [listed] using hx'
      · have hu : update_ptlist (some (a :: t)) s = some (a :: (t ++ [s])) := by
          simp [update_ptlist, hmem]
        rw [hu]
        simp [listed, hx']

/-- After `update_ptlist st s` on a well-formed state, `s` is listed. -/
theorem update_ptlist_self_mem {s : String} (st : Option (List String)) (hst : PtInv st) :
    s ∈ listed (update_ptlist st s) := by
  cases st with
  | none =>
    have hu : update_ptlist none s = some ["participant_id", s] := by simp [update_ptlist]
    rw [hu]
    simp [listed]
  | some lines =>
    obtain ⟨t, rfl, -⟩ := hst
    by_cases hmem : s ∈ t
    · have hu : update_ptlist (some ("participant_id" :: t)) s =
          some ("participant_id" :: t) := by simp [update_ptlist, hmem]
      rw [hu]
      simpa [listed] using hmem
    · have hu : update_ptlist (some ("participant_id" :: t)) s =
          some ("participant_id" :: (t ++ [s])) := by simp [update_ptlist, hmem]
      rw [hu]
      simp [listed]

/-- Folding `update_ptlist` preserves well-formedness, keeps every listed
subject listed, and lists every processed subject. -/
theorem foldl_update_ptlist (subjects : List String) (st : Option (List String))
    (hst : PtInv st) (hs : ∀ s ∈ subjects, s ≠ "participant_id") :
    PtInv (subjects.foldl update_ptlist st) ∧
    (∀ x ∈ listed st, x ∈ listed (subjects.foldl update_ptlist st)) ∧
    (∀ s ∈ subjects, s ∈ listed (subjects.foldl update_ptlist st)) := by
  induction subjects generalizing st with
  | nil => exact ⟨hst, fun x hx => hx, by simp⟩
  | cons a l ih =>
    have h1 : PtInv (update_ptlist st a) := update_ptlist_inv st hst (hs a (by simp))
    obtain ⟨hinv, hmono, hall⟩ :=
      ih (update_ptlist st a) h1 (fun s hmem => hs s (List.mem_cons_of_mem a hmem))
    refine ⟨hinv, ?_, ?_⟩
    · intro x hx
      exact hmono x (listed_mono st x hx)
    · intro s hsmem
      rcases List.mem_cons.mp hsmem with rfl | hsmem
      · exact hmono s (update_ptlist_self_mem st hst)
      · exact hall s hsmem

/-- C9: starting from no participants file, any call sequence produces a
file whose first line is the header `participant_id`, whose lines are
pairwise distinct (each subject at most once), and on which re-adding any
already-processed subject is the identity (the file is not rewritten). -/
theorem C9_update_ptlist_idempotent_and_duplicate_free
    (subjects : List String) (h : "participant_id" ∉ subjects) (lines : List String)
    (hres : subjects.foldl update_ptlist none = some lines) :
    lines.head? = some "participant_id" ∧ lines.Nodup ∧
    ∀ s ∈ subjects, update_ptlist (some lines) s = some lines := by
  obtain ⟨hinv, -, hall⟩ :=
    foldl_update_ptlist subjects none trivial (fun s hsmem heq => h (heq ▸ hsmem))
  rw [hres] at hinv hall
  obtain ⟨t, ht, hnd⟩ := hinv
  subst ht
  refine ⟨rfl, hnd, ?_⟩
  intro s hsmem
  have hs' : s ∈ t := by simpa [listed] using hall s hsmem
  simp [update_ptlist, hs']

/-- Witness for C9 at a concrete call sequence with a repeated subject. -/
theorem C9_witness :
    ("participant_id" ∉ ["sub-01", "sub-02", "sub-01"]) ∧
    (["sub-01", "sub-02", "sub-01"].foldl update_ptlist none =
      some ["participant_id", "sub-01", "sub-02"]) ∧
    (["participant_id", "sub-01", "sub-02"].head? = some "participant_id" ∧
      ["participant_id", "sub-01", "sub-02"].Nodup ∧
      ∀ s ∈ ["sub-01", "sub-02", "sub-01"],
        update_ptlist (some ["participant_id", "sub-01", "sub-02"]) s =
          some ["participant_id", "sub-01", "sub-02"]) :=
  ⟨by decide, by decide,
    C9_update_ptlist_idempotent_and_duplicate_free ["sub-01", "sub-02", "sub-01"]
      (by decide) ["participant_id", "sub-01", "sub-02"] (by decide)⟩

/-! Infrastructure for the unmatched-acquisition claim: no two distinct
basenames share a staged path, renames only create subfolder paths, and
the cleanup loop removes every staged extension file. -/

theorem mem_fsRemove {fs : FS} {p : Path} {e : Path × Path} (h : e ∈ fsRemove fs p) : e ∈ fs :=
  (List.mem_filter.mp h).1

theorem ne_of_mem_fsRemove {fs : FS} {p : Path} {e : Path × Path} (h : e ∈ fsRemove fs p) :
    e.1 ≠ p := by
  have h2 := (List.mem_filter.mp h).2
  simpa using h2

theorem mem_fsRename {fs : FS} {src dst : Path} {e : Path × Path}
    (h : e ∈ fsRename fs src dst) :
    (∃ prov, e = (dst, prov) ∧ (src, prov) ∈ fs) ∨ e ∈ fs := by
  unfold fsRename at h
  cases hf : fs.find? (fun e => e.1 == src) with
  | none =>
    simp only [hf] at h
    exact Or.inr h
  | some a =>
    simp only [hf] at h
    rcases List.mem_cons.mp h with rfl | h'
    · refine Or.inl ⟨a.2, rfl, ?_⟩
      have ha : a ∈ fs := List.mem_of_find?_eq_some hf
      have hpa : a.1 = src := by
        have hp := List.find?_some hf
        simpa using hp
      have he : a = (src, a.2) := by rw [← hpa]
      rw [← he]
      exact ha
    · exact Or.inr (mem_fsRemove (mem_fsRemove h'))

theorem fsExists_eq_false_iff {fs : FS} {p : Path} :
    fsExists fs p = false ↔ ∀ e ∈ fs, e.1 ≠ p := by
  simp [fsExists, List.any_eq_false]

theorem dest_not_mem_acqFiles (folder name bad : String) :
    Path.dest folder name ∉ acqFiles bad := by
  simp [acqFiles]

/-- Among the concrete extensions, being a character-suffix of one another
forces equality. -/
theorem ext_suffix_unique : ∀ e1 ∈ EXTS, ∀ e2 ∈ EXTS, e1.data <:+ e2.data → e1 = e2 := by
  decide

/-- Appending extensions from the vocabulary is jointly injective: equal
results force the same extension and the same stem. -/
theorem append_ext_eq {x y e1 e2 : String} (h1 : e1 ∈ EXTS) (h2 : e2 ∈ EXTS)
    (h : x ++ e1 = y ++ e2) : e1 = e2 ∧ x = y := by
  have hd : x.data ++ e1.data = y.data ++ e2.data := by
    have hc := congrArg String.data h
    simpa [String.data_append] using hc
  have hs1 : e1.data <:+ y.data ++ e2.data := hd ▸ List.suffix_append x.data e1.data
  have hs2 : e2.data <:+ y.data ++ e2.data := List.suffix_append y.data e2.data
  have he : e1 = e2 := by
    rcases List.suffix_or_suffix_of_suffix hs1 hs2 with h' | h'
    · exact ext_suffix_unique e1 h1 e2 h2 h'
    · exact (ext_suffix_unique e2 h2 e1 h1 h').symm
  subst he
  refine ⟨rfl, String.ext (List.append_cancel_right hd)⟩

theorem staged_not_mem_acqFiles {img bad : String} (hne : img ≠ bad) {ext : String}
    (hext : ext ∈ EXTS) : Path.staged (img ++ ext) ∉ acqFiles bad := by
  intro hmem
  rcases List.mem_map.mp hmem with ⟨e2, he2, heq⟩
  have heq' : bad ++ e2 = img ++ ext := by
    injection heq
  exact hne ((append_ext_eq he2 hext heq').2.symm)

theorem ProvFollows_sub {bad : String} {fs fs' : FS}
    (hsub : ∀ e ∈ fs', e ∈ fs) (h : ProvFollows bad fs) : ProvFollows bad fs' :=
  fun e he h2 => h e (hsub e he) h2

theorem NoTrace_sub {bad : String} {fs fs' : FS}
    (hsub : ∀ e ∈ fs', e ∈ fs) (h : NoTrace bad fs) : NoTrace bad fs' :=
  fun e he => h e (hsub e he)

theorem ProvFollows_fsRename {bad : String} {fs : FS} {src dst : Path}
    (hsrc : src ∉ acqFiles bad) (h : ProvFollows bad fs) :
    ProvFollows bad (fsRename fs src dst) := by
  intro e he h2
  rcases mem_fsRename he with ⟨prov, rfl, hp⟩ | he'
  · exact absurd (h (src, prov) hp h2) hsrc
  · exact h e he' h2

theorem NoTrace_fsRename {bad : String} {fs : FS} {src : Path} {folder name : String}
    (h : NoTrace bad fs) : NoTrace bad (fsRename fs src (.dest folder name)) := by
  intro e he
  rcases mem_fsRename he with ⟨prov, rfl, hp⟩ | he'
  · exact ⟨dest_not_mem_acqFiles folder name bad, (h (src, prov) hp).2⟩
  · exact h e he'

theorem ProvFollows_handleDup {bad : String} (ctx : Ctx) (folder suffix ext : String)
    (fuel : Nat) (attrs : List (String × AVal)) (fs : FS) (h : ProvFollows bad fs) :
    ProvFollows bad (handleDup ctx folder suffix ext fuel attrs fs).2.1 := by
  induction fuel generalizing attrs fs with
  | zero => exact h
  | succ n ih =>
    simp only [handleDup]
    split
    · split
      · exact ih _ _ (ProvFollows_fsRename (dest_not_mem_acqFiles _ _ _) h)
      · exact ih _ _ h
    · exact h

theorem NoTrace_handleDup {bad : String} (ctx : Ctx) (folder suffix ext : String)
    (fuel : Nat) (attrs : List (String × AVal)) (fs : FS) (h : NoTrace bad fs) :
    NoTrace bad (handleDup ctx folder suffix ext fuel attrs fs).2.1 := by
  induction fuel generalizing attrs fs with
  | zero => exact h
  | succ n ih =>
    simp only [handleDup]
    split
    · split
      · exact ih _ _ (NoTrace_fsRename h)
      · exact ih _ _ h
    · exact h

theorem ProvFollows_runDup {bad : String} (ctx : Ctx) (folder suffix imgname ext : String)
    (st : ExtState) (h : ProvFollows bad st.fs) :
    ProvFollows bad (runDup ctx folder suffix imgname ext st).fs := by
  unfold runDup
  split
  · exact h
  · exact ProvFollows_handleDup ctx folder suffix ext _ _ _ h

theorem NoTrace_runDup {bad : String} (ctx : Ctx) (folder suffix imgname ext : String)
    (st : ExtState) (h : NoTrace bad st.fs) :
    NoTrace bad (runDup ctx folder suffix imgname ext st).fs := by
  unfold runDup
  split
  · exact h
  · exact NoTrace_handleDup ctx folder suffix ext _ _ _ h

theorem ProvFollows_moveSrc {bad img : String} (hne : img ≠ bad) {ext : String}
    (hext : ext ∈ EXTS) (st : ExtState) (h : ProvFollows bad st.fs) :
    ProvFollows bad (moveSrc img ext st).fs := by
  unfold moveSrc
  split
  · exact ProvFollows_fsRename (staged_not_mem_acqFiles hne hext) h
  · exact h

theorem NoTrace_moveSrc {bad : String} (img ext : String) (st : ExtState)
    (h : NoTrace bad st.fs) : NoTrace bad (moveSrc img ext st).fs := by
  unfold moveSrc
  split
  · exact NoTrace_fsRename h
  · exact h

theorem ProvFollows_processExt {bad img : String} (hne : img ≠ bad) (ctx : Ctx)
    (folder suffix : String) {ext : String} (hext : ext ∈ EXTS) (st : ExtState)
    (h : ProvFollows bad st.fs) :
    ProvFollows bad (processExt ctx folder suffix img st ext).fs :=
  ProvFollows_moveSrc hne hext _ (ProvFollows_runDup ctx folder suffix img ext st h)

theorem NoTrace_processExt {bad : String} (ctx : Ctx) (folder suffix img ext : String)
    (st : ExtState) (h : NoTrace bad st.fs) :
    NoTrace bad (processExt ctx folder suffix img st ext).fs :=
  NoTrace_moveSrc img ext _ (NoTrace_runDup ctx folder suffix img ext st h)

/-- A generic invariant walker for `List.foldl`. -/
theorem foldl_inv {α : Type u_1} {σ : Type u_2} (Inv : σ → Prop) (P : α → Prop)
    {f : σ → α → σ} (hf : ∀ s a, P a → Inv s → Inv (f s a)) :
    ∀ l : List α, (∀ a ∈ l, P a) → ∀ s, Inv s → Inv (l.foldl f s) := by
  intro l
  induction l with
  | nil => exact fun _ s h => h
  | cons a t ih =>
    intro hl s h
    rw [List.foldl_cons]
    exact ih (fun b hb => hl b (List.mem_cons_of_mem a hb)) (f s a)
      (hf s a (hl a (List.mem_cons_self a t)) h)

theorem mem_delFold {img : String} :
    ∀ (l : List String) (fs : FS) (e : Path × Path), e ∈ l.foldl (delStep img) fs → e ∈ fs := by
  intro l
  induction l with
  | nil => exact fun fs e h => h
  | cons a t ih =>
    intro fs e h
    rw [List.foldl_cons] at h
    have h1 : e ∈ delStep img fs a := ih _ _ h
    revert h1
    unfold delStep
    split
    · exact fun hh => mem_fsRemove hh
    · exact id

theorem delFold_removes {img : String} :
    ∀ (l : List String) (fs : FS), ∀ ext ∈ l,
      ∀ e ∈ l.foldl (delStep img) fs, e.1 ≠ Path.staged (img ++ ext) := by
  intro l
  induction l with
  | nil => intro fs ext hext; exact absurd hext (List.not_mem_nil ext)
  | cons a t ih =>
    intro fs ext hext e he
    rw [List.foldl_cons] at he
    rcases List.mem_cons.mp hext with rfl | hext'
    · have habs : ∀ e' ∈ delStep img fs ext, e'.1 ≠ Path.staged (img ++ ext) := by
        intro e' he'
        unfold delStep at he'
        cases hex : fsExists fs (.staged (img ++ ext)) with
        | true =>
          simp only [hex, if_true] at he'
          exact ne_of_mem_fsRemove he'
        | false =>
          simp only [hex, Bool.false_eq_true, if_false] at he'
          exact fsExists_eq_false_iff.mp hex e' he'
      exact habs e (mem_delFold t _ e he)
    · exact ih (delStep img fs a) ext hext' e he

theorem deleteExts_removes {fs : FS} {img : String} :
    ∀ ext ∈ EXTS, ∀ e ∈ deleteExts fs img, e.1 ≠ Path.staged (img ++ ext) :=
  delFold_removes EXTS fs

theorem ProvFollows_deleteExts {bad img : String} {fs : FS} (h : ProvFollows bad fs) :
    ProvFollows bad (deleteExts fs img) :=
  ProvFollows_sub (fun e he => mem_delFold EXTS fs e he) h

theorem NoTrace_deleteExts_self {bad : String} {fs : FS} (h : ProvFollows bad fs) :
    NoTrace bad (deleteExts fs bad) := by
  intro e he
  have h1 : e.1 ∉ acqFiles bad := by
    intro hmem
    rcases List.mem_map.mp hmem with ⟨ext, hext, heq⟩
    exact deleteExts_removes ext hext e he heq.symm
  exact ⟨h1, fun h2 => h1 (ProvFollows_deleteExts h e he h2)⟩

/-- If an acquisition classifies to nothing under its parsed sidecar, its
processing step is exactly the cleanup-and-warn branch, whatever the
current filesystem holds (a vanished or unreadable sidecar leads to the
empty mapping, which also matches nothing). -/
theorem processAcq_unmatched (ctx : Ctx) (oracle : String → Option Sidecar) {bad : String}
    (fs : FS) (log : List String)
    (hnc : classify bad ((oracle bad).getD emptySidecar) = none) :
    processAcq ctx oracle (fs, log) bad =
      (deleteExts fs bad, log ++ (jsonDataFor oracle fs bad).2 ++ [warnUnmatched bad]) := by
  have hj : classify bad (jsonDataFor oracle fs bad).1 = none := by
    cases hex : fsExists fs (.staged (bad ++ ".json")) with
    | false => simp [jsonDataFor, hex, classify_emptySidecar]
    | true =>
      cases ho : oracle bad with
      | some d =>
        have hcd : classify bad d = none := by simpa [ho] using hnc
        simp [jsonDataFor, hex, ho, hcd]
      | none => simp [jsonDataFor, hex, ho, classify_emptySidecar]
  simp [processAcq, handleAcq, hj]

theorem ProvFollows_processAcq (ctx : Ctx) (oracle : String → Option Sidecar) {bad : String}
    (hnc : classify bad ((oracle bad).getD emptySidecar) = none)
    (stp : FS × List String) (img : String) (h : ProvFollows bad stp.1) :
    ProvFollows bad (processAcq ctx oracle stp img).1 := by
  obtain ⟨fs, log⟩ := stp
  by_cases hne : img = bad
  · subst hne
    rw [processAcq_unmatched ctx oracle fs log hnc]
    exact ProvFollows_deleteExts h
  · show ProvFollows bad (handleAcq ctx fs img (jsonDataFor oracle fs img).1).1
    cases hcl : classify img (jsonDataFor oracle fs img).1 with
    | none =>
      simp only [handleAcq, hcl]
      exact ProvFollows_deleteExts h
    | some r =>
      simp only [handleAcq, hcl]
      exact foldl_inv (fun s : ExtState => ProvFollows bad s.fs) (fun e => e ∈ EXTS)
        (fun s a ha hInv => ProvFollows_processExt hne ctx r.folder r.suffix ha s hInv)
        EXTS (fun a ha => ha) _ h

theorem NoTrace_processAcq (ctx : Ctx) (oracle : String → Option Sidecar) {bad : String}
    (stp : FS × List String) (img : String) (h : NoTrace bad stp.1) :
    NoTrace bad (processAcq ctx oracle stp img).1 := by
  obtain ⟨fs, log⟩ := stp
  show NoTrace bad (handleAcq ctx fs img (jsonDataFor oracle fs img).1).1
  cases hcl : classify img (jsonDataFor oracle fs img).1 with
  | none =>
    simp only [handleAcq, hcl]
    exact NoTrace_sub (fun e he => mem_delFold EXTS fs e he) h
  | some r =>
    simp only [handleAcq, hcl]
    exact foldl_inv (fun s : ExtState => NoTrace bad s.fs) (fun _ => True)
      (fun s a _ hInv => NoTrace_processExt ctx r.folder r.suffix img a s hInv)
      EXTS (fun _ _ => trivial) _ h

theorem foldl_log_mono (ctx : Ctx) (oracle : String → Option Sidecar) :
    ∀ (l : List String) (stp : FS × List String),
      ∃ t, (l.foldl (processAcq ctx oracle) stp).2 = stp.2 ++ t := by
  intro l
  induction l with
  | nil => exact fun stp => ⟨[], by simp⟩
  | cons a l ih =>
    intro stp
    obtain ⟨t, ht⟩ := ih (processAcq ctx oracle stp a)
    refine ⟨(jsonDataFor oracle stp.1 a).2 ++
      (handleAcq ctx stp.1 a (jsonDataFor oracle stp.1 a).1).2 ++ t, ?_⟩
    rw [List.foldl_cons, ht]
    simp [processAcq]

/-- C6: if an acquisition in the enumeration matches no rule (under its
parsed sidecar — with an absent or unreadable one it cannot match either),
then at the end of the whole loop none of its staged extension files is
present, no file anywhere in the output tree is one of its staged paths or
carries their bytes, and the unmatched warning was logged; the remaining
acquisitions were still processed (the end state is the full fold). -/
theorem C6_unmatched_files_deleted_and_warned
    (ctx : Ctx) (oracle : String → Option Sidecar) (order : List String) (fs0 : FS)
    (bad : String) (hmem : bad ∈ order)
    (hnc : classify bad ((oracle bad).getD emptySidecar) = none)
    (hinit : ∀ e ∈ fs0, e.2 = e.1) :
    (∀ ext ∈ EXTS, fsExists (processAll ctx oracle order fs0).1 (.staged (bad ++ ext)) = false) ∧
    (∀ e ∈ (processAll ctx oracle order fs0).1, e.1 ∉ acqFiles bad ∧ e.2 ∉ acqFiles bad) ∧
    warnUnmatched bad ∈ (processAll ctx oracle order fs0).2 := by
  obtain ⟨l1, l2, rfl⟩ := List.append_of_mem hmem
  have hfold : processAll ctx oracle (l1 ++ bad :: l2) fs0 =
      l2.foldl (processAcq ctx oracle)
        (processAcq ctx oracle (l1.foldl (processAcq ctx oracle) (fs0, [])) bad) := by
    simp [processAll, List.foldl_append]
  have hP0 : ProvFollows bad fs0 := fun e he h2 => (hinit e he) ▸ h2
  have hPmid : ProvFollows bad (l1.foldl (processAcq ctx oracle) (fs0, [])).1 :=
    foldl_inv (fun stp : FS × List String => ProvFollows bad stp.1) (fun _ => True)
      (fun s a _ hInv => ProvFollows_processAcq ctx oracle hnc s a hInv)
      l1 (fun _ _ => trivial) (fs0, []) hP0
  have hbadstep : processAcq ctx oracle (l1.foldl (processAcq ctx oracle) (fs0, [])) bad =
      (deleteExts (l1.foldl (processAcq ctx oracle) (fs0, [])).1 bad,
        (l1.foldl (processAcq ctx oracle) (fs0, [])).2 ++
          (jsonDataFor oracle (l1.foldl (processAcq ctx oracle) (fs0, [])).1 bad).2 ++
          [warnUnmatched bad]) :=
    processAcq_unmatched ctx oracle _ _ hnc
  have hQ : NoTrace bad (processAcq ctx oracle (l1.foldl (processAcq ctx oracle) (fs0, [])) bad).1 := by
    rw [hbadstep]
    exact NoTrace_deleteExts_self hPmid
  have hQfinal : NoTrace bad (l2.foldl (processAcq ctx oracle)
      (processAcq ctx oracle (l1.foldl (processAcq ctx oracle) (fs0, [])) bad)).1 :=
    foldl_inv (fun stp : FS × List String => NoTrace bad stp.1) (fun _ => True)
      (fun s a _ hInv => NoTrace_processAcq ctx oracle s a hInv)
      l2 (fun _ _ => trivial) _ hQ
  rw [hfold]
  refine ⟨?_, fun e he => hQfinal e he, ?_⟩
  · intro ext hext
    refine fsExists_eq_false_iff.mpr (fun e he heq => ?_)
    exact (hQfinal e he).1 (heq ▸ List.mem_map.mpr ⟨ext, hext, rfl⟩)
  · obtain ⟨t, ht⟩ := foldl_log_mono ctx oracle l2
      (processAcq ctx oracle (l1.foldl (processAcq ctx oracle) (fs0, [])) bad)
    rw [ht, hbadstep]
    simp

/-- Witness for C6 at a concrete input: one acquisition "x" staged with an
image file and no sidecar, so nothing matches. -/
theorem C6_witness :
    ("x" ∈ ["x"]) ∧
    (classify "x" ((noneOracle "x").getD emptySidecar) = none) ∧
    (∀ e ∈ ([st0 "x.nii.gz"] : FS), e.2 = e.1) ∧
    ((∀ ext ∈ EXTS,
        fsExists (processAll ctx0 noneOracle ["x"] [st0 "x.nii.gz"]).1
          (.staged ("x" ++ ext)) = false) ∧
      (∀ e ∈ (processAll ctx0 noneOracle ["x"] [st0 "x.nii.gz"]).1,
        e.1 ∉ acqFiles "x" ∧ e.2 ∉ acqFiles "x") ∧
      warnUnmatched "x" ∈ (processAll ctx0 noneOracle ["x"] [st0 "x.nii.gz"]).2) :=
  ⟨by decide, by decide, by decide,
    C6_unmatched_files_deleted_and_warned ctx0 noneOracle ["x"] [st0 "x.nii.gz"] "x"
      (by decide) (by decide) (by decide)⟩

end Xnatc
